import Mathlib

/-!
Verification development for the `mastodon-block-enum` repository.

The Rust sources (`src/main.rs`, `src/database.rs`, `src/api/mastodon.rs`)
are shallowly embedded below.  Strings that the Rust code manipulates at the
byte level (the brute-force buffer) are modelled as `List Nat` of byte
values; strings manipulated as whole values (domains, hex digests) are
modelled as Lean `String`.  The `sha2` crate's SHA-256 is embedded directly
from FIPS 180-4, which is the function that crate implements.  Rust panics
are modelled as the `none` case of an outer `Option`; `BTreeSet<String>` is
modelled as `Finset String`; rayon's `find_map_any` over the index range is
modelled as the sequential first match (`List.findSome?`), the variant that
appears commented out in the source — the two agree whenever at most one
candidate in the space matches, and all order-independent facts proved below
hold for either.  The source's `usize` power (`ALPHABET.len().pow(..)`),
which overflows for 13 or more wildcards, is modelled as the wrapping
`usizePow` (release semantics; a debug build panics there instead).
-/

namespace MBE

/-! ## SHA-256 (FIPS 180-4), the function implemented by the `sha2` crate -/

/-- Truncation to a 32-bit word. -/
def w32 (x : Nat) : Nat := x % 2 ^ 32

/-- Right rotation of a 32-bit word. -/
def rotr (n x : Nat) : Nat := w32 ((x >>> n) ||| (x <<< (32 - n)))

/-- Bitwise complement of a 32-bit word. -/
def wnot (x : Nat) : Nat := x ^^^ 0xffffffff

def bigSigma0 (x : Nat) : Nat := rotr 2 x ^^^ rotr 13 x ^^^ rotr 22 x
def bigSigma1 (x : Nat) : Nat := rotr 6 x ^^^ rotr 11 x ^^^ rotr 25 x
def smallSigma0 (x : Nat) : Nat := rotr 7 x ^^^ rotr 18 x ^^^ (x >>> 3)
def smallSigma1 (x : Nat) : Nat := rotr 17 x ^^^ rotr 19 x ^^^ (x >>> 10)
def ch (x y z : Nat) : Nat := (x &&& y) ^^^ (wnot x &&& z)
def maj (x y z : Nat) : Nat := (x &&& y) ^^^ (x &&& z) ^^^ (y &&& z)

/-- The 64 SHA-256 round constants (FIPS 180-4 section 4.2.2, written in
decimal): the first 32 bits of the fractional parts of the cube roots of
the first 64 primes. -/
def sha256K : List Nat :=
  [1116352408, 1899447441, 3049323471, 3921009573, 961987163, 1508970993,
   2453635748, 2870763221, 3624381080, 310598401, 607225278, 1426881987,
   1925078388, 2162078206, 2614888103, 3248222580, 3835390401, 4022224774,
   264347078, 604807628, 770255983, 1249150122, 1555081692, 1996064986,
   2554220882, 2821834349, 2952996808, 3210313671, 3336571891, 3584528711,
   113926993, 338241895, 666307205, 773529912, 1294757372, 1396182291,
   1695183700, 1986661051, 2177026350, 2456956037, 2730485921, 2820302411,
   3259730800, 3345764771, 3516065817, 3600352804, 4094571909, 275423344,
   430227734, 506948616, 659060556, 883997877, 958139571, 1322822218,
   1537002063, 1747873779, 1955562222, 2024104815, 2227730452, 2361852424,
   2428436474, 2756734187, 3204031479, 3329325298]

/-- The SHA-256 initial hash value (FIPS 180-4 section 5.3.3, in decimal). -/
def sha256H0 : List Nat :=
  [1779033703, 3144134277, 1013904242, 2773480762,
   1359893119, 2600822924, 528734635, 1541459225]

/-- Big-endian byte encoding of `v` on `n` bytes. -/
def beBytes : Nat → Nat → List Nat
  | 0, _ => []
  | n + 1, v => beBytes n (v / 256) ++ [v % 256]

/-- SHA-256 padding: append `0x80`, zeros to 56 mod 64, then the bit length
on 8 big-endian bytes. -/
def padMessage (msg : List Nat) : List Nat :=
  msg ++ [0x80] ++ List.replicate ((119 - msg.length % 64) % 64) 0
      ++ beBytes 8 (8 * msg.length)

/-- Group bytes into big-endian 32-bit words. -/
def toWords : List Nat → List Nat
  | a :: b :: c :: d :: rest => (((a * 256 + b) * 256 + c) * 256 + d) :: toWords rest
  | _ => []

/-- The message-schedule recurrence `W[t] = σ1(W[t-2]) + W[t-7] + σ0(W[t-15])
+ W[t-16]`, computed over a sliding 16-word window `W[t-16..t-1]` (oldest
first): the next word reads positions 14, 9, 1 and 0 of the window. -/
def scheduleRest : Nat → List Nat → List Nat
  | 0, _ => []
  | t + 1, window =>
    let newW := w32 (smallSigma1 (window.getD 14 0) + window.getD 9 0 +
                     smallSigma0 (window.getD 1 0) + window.getD 0 0)
    newW :: scheduleRest t (window.tail ++ [newW])

/-- The full 64-word message schedule of one block: the 16 block words
followed by the 48 words of the recurrence. -/
def fullSchedule (block : List Nat) : List Nat := block ++ scheduleRest 48 block

/-- The 64 rounds of the SHA-256 compression function over the working
registers `a..h`, consuming one round constant and one schedule word per
round. -/
def rounds : List Nat → List Nat → Nat → Nat → Nat → Nat → Nat → Nat → Nat → Nat → List Nat
  | k :: ks, w :: ws, a, b, c, d, e, f, g, h =>
    let t1 := w32 (h + bigSigma1 e + ch e f g + k + w)
    let t2 := w32 (bigSigma0 a + maj a b c)
    rounds ks ws (w32 (t1 + t2)) a b c (w32 (d + t1)) e f g
  | _, _, a, b, c, d, e, f, g, h => [a, b, c, d, e, f, g, h]

/-- Process one 64-byte block, updating the 8-word hash state. -/
def processBlock (h : List Nat) (block : List Nat) : List Nat :=
  let w := fullSchedule (toWords block)
  let st := match h with
    | [a, b, c, d, e, f, g, hh] => rounds sha256K w a b c d e f g hh
    | _ => h
  (h.zip st).map (fun p => w32 (p.1 + p.2))

/-- Split into 64-byte chunks (fuel-structured recursion; the fuel
`l.length` always suffices since each step consumes at least one byte). -/
def chunksAux : Nat → List Nat → List (List Nat)
  | 0, _ => []
  | _, [] => []
  | fuel + 1, l => l.take 64 :: chunksAux fuel (l.drop 64)

def chunks64 (l : List Nat) : List (List Nat) := chunksAux l.length l

/-- SHA-256 of a byte string, as a 32-byte digest. -/
def sha256 (msg : List Nat) : List Nat :=
  (((chunks64 (padMessage msg)).foldl processBlock sha256H0).map (beBytes 4)).flatten

/-! ## `brute_force` (src/main.rs lines 171-216)

The pattern and the candidate buffer are byte strings (`List Nat`); the
wildcard marker `'*'` is byte 42.  `brute_force` returns `none` for the
`panic!("url {pattern} too long")` branch and `some r` otherwise, where
`r : Option (List Nat)` is the search result. -/

/-- `b"abcdefghijklmnopqrstuvwxyz0123456789"`, the fixed 36-symbol
candidate alphabet (`ALPHABET` in the source). -/
def ALPHABET : List Nat :=
  [97, 98, 99, 100, 101, 102, 103, 104, 105, 106, 107, 108, 109, 110, 111,
   112, 113, 114, 115, 116, 117, 118, 119, 120, 121, 122,
   48, 49, 50, 51, 52, 53, 54, 55, 56, 57]

/-- `pattern.chars().filter(|c| *c == '*').count()`: the number of wildcard
bytes (42 = `'*'`) in the pattern. -/
def count42 (pattern : List Nat) : Nat := pattern.countP (fun b => b = 42)

/-- Replace the first `'*'` byte of the buffer by `c` (the body of one
iteration of the `for wc_idx` loop: `find` the first `b'*'`, assign). -/
def fillOnce : List Nat → Nat → List Nat
  | [], _ => []
  | b :: rest, c => if b = 42 then c :: rest else b :: fillOnce rest c

/-- `usize::pow` on the 64-bit targets the program runs on: release builds
(overflow checks off) wrap, giving the exact power reduced mod `2^64`; a
debug build would instead panic at the overflowing multiplication, so for
every exponent where the two differ from the exact power the program never
produces a value beyond the wrapped one.  Release (wrapping) semantics are
modelled. -/
def usizePow (b e : Nat) : Nat := b ^ e % 2 ^ 64

/-- The candidate the source builds for index `i`: starting from the
pattern bytes, the `wc_idx`-th loop iteration writes
`ALPHABET[(i / ALPHABET.len().pow(wc_idx)) % 36]` into the first remaining
`'*'` slot; the divisor is the wrapping `usize` power, which differs from
the exact `36 ^ wc_idx` once `wc_idx ≥ 13`. -/
def makeCandidate (pattern : List Nat) (i : Nat) : List Nat :=
  (List.range (count42 pattern)).foldl
    (fun buffer wc_idx =>
      fillOnce buffer
        (ALPHABET.getD (i / usizePow ALPHABET.length wc_idx % ALPHABET.length) 0))
    pattern

/-- `total_count = ALPHABET.len().pow(wildcard_count)`: the wrapping
`usize` power, equal to `36 ^ k` only while `36 ^ k < 2^64`, i.e. for at
most 12 wildcards. -/
def totalCount (pattern : List Nat) : Nat :=
  usizePow ALPHABET.length (count42 pattern)

/-- The full candidate space enumerated by the search, in index order. -/
def searchSpace (pattern : List Nat) : List (List Nat) :=
  (List.range (totalCount pattern)).map (makeCandidate pattern)

/-- The closure passed to `find_map_any`: build the candidate buffer for
index `i`, hash it, and return it when the digest matches. -/
def tryIndex (pattern expected_digest : List Nat) (i : Nat) : Option (List Nat) :=
  let buffer := makeCandidate pattern i
  if sha256 buffer = expected_digest then some buffer else none

/-- `brute_force(pattern, expected_digest)`.  `none` models the panic on a
pattern longer than the 32-byte buffer; otherwise the candidates for
indices `0..total_count` are hashed and compared with the expected digest.
The parallel `find_map_any` is modelled as the sequential first match. -/
def brute_force (pattern : List Nat) (expected_digest : List Nat) :
    Option (Option (List Nat)) :=
  if pattern.length > 32 then
    none
  else
    some ((List.range (totalCount pattern)).findSome? (tryIndex pattern expected_digest))

/-! ### Spec-level predicates used to state the search claims -/

/-- `D` matches mask `P` positionally: same length, and identical at every
non-wildcard position (claim wording; masked positions unconstrained). -/
def matchesMask : List Nat → List Nat → Bool
  | [], [] => true
  | p :: ps, d :: ds => (p = 42 || p = d) && matchesMask ps ds
  | _, _ => false

/-- The bytes of `D` sitting at the wildcard positions of `P`, in order. -/
def wildChars : List Nat → List Nat → List Nat
  | p :: ps, d :: ds => if p = 42 then d :: wildChars ps ds else wildChars ps ds
  | _, _ => []

/-- Substitute the successive elements of `cs` for the successive `'*'`
bytes of the pattern (structural form of the candidate construction). -/
def fillWild : List Nat → List Nat → List Nat
  | [], _ => []
  | p :: ps, cs => if p = 42 then cs.headD 0 :: fillWild ps cs.tail
                   else p :: fillWild ps cs

/-- The digit string the program's loop actually places for index `i`:
digit `j` is `ALPHABET[(i / usizePow 36 j) % 36]`, with the wrapping
divisor of the source. -/
def usizeDigits (i k : Nat) : List Nat :=
  (List.range k).map
    (fun j => ALPHABET.getD (i / usizePow ALPHABET.length j % ALPHABET.length) 0)

/-- The base-36 digit string of index `i`, least significant first, mapped
through the alphabet: digit `j` is `ALPHABET[(i / 36^j) % 36]` with the
exact power — it agrees with `usizeDigits` for at most 13 digits. -/
def digitsList : Nat → Nat → List Nat
  | _, 0 => []
  | i, k + 1 => ALPHABET.getD (i % 36) 0 :: digitsList (i / 36) k

/-- The indices of the wildcard positions of a mask, in increasing order. -/
def wildcardPositions : List Nat → List Nat
  | [] => []
  | p :: ps => if p = 42 then 0 :: (wildcardPositions ps).map (· + 1)
               else (wildcardPositions ps).map (· + 1)

/-! ## The record model (src/main.rs lines 259-330, src/api/mastodon.rs) -/

/-- `DomainBlockSeverity` from src/api/mastodon.rs. -/
inductive DomainBlockSeverity where
  | silence
  | suspend
deriving DecidableEq

/-- `DomainBlock` from src/api/mastodon.rs: one block-list entry, with the
domain possibly masked and the digest hex-encoded. -/
structure DomainBlock where
  domain : String
  digest : String
  severity : DomainBlockSeverity
  comment : Option String
deriving DecidableEq

/-- `DomainEntry` from src/main.rs: the record for one digest.  The
`BTreeSet<String>` of partial domains is modelled as a `Finset String`. -/
structure DomainEntry where
  digest : List Nat
  known_domain : Option String
  partial_domains : Finset String
deriving DecidableEq

/-- `DomainEntry::merge` (src/main.rs lines 282-296): first-argument
precedence on `known_domain` (`Option::or`), set union of the partial
domains (`chain` + `collect` into a `BTreeSet`). -/
def DomainEntry.merge (self other : DomainEntry) : DomainEntry :=
  { digest := self.digest
    known_domain := self.known_domain.or other.known_domain
    partial_domains := self.partial_domains ∪ other.partial_domains }

/-- `String::contains('*')` on a domain string, as a scan of its
characters. -/
def containsStar (s : String) : Bool := s.data.any (fun c => c = '*')

/-- One hex digit, as the `hex` crate accepts it (both cases). -/
def hexDigitVal (c : Char) : Option Nat :=
  if '0' ≤ c ∧ c ≤ '9' then some (c.toNat - 48)
  else if 'a' ≤ c ∧ c ≤ 'f' then some (c.toNat - 87)
  else if 'A' ≤ c ∧ c ≤ 'F' then some (c.toNat - 55)
  else none

/-- `hex::decode` on a char list: fails (`none`) on an odd-length input or
on any non-hex character. -/
def hexDecodeList : List Char → Option (List Nat)
  | [] => some []
  | [_] => none
  | c1 :: c2 :: rest =>
    match hexDigitVal c1, hexDigitVal c2, hexDecodeList rest with
    | some hi, some lo, some bs => some ((16 * hi + lo) :: bs)
    | _, _, _ => none

/-- `hex::decode` of a string. -/
def hexDecode (s : String) : Option (List Nat) := hexDecodeList s.data

/-- One lowercase hex digit character. -/
def hexDigitChar (n : Nat) : Char :=
  if n < 10 then Char.ofNat (48 + n) else Char.ofNat (87 + n)

/-- `hex::encode`: lowercase hex, two digits per byte. -/
def hexEncode (bs : List Nat) : String :=
  String.mk ((bs.map (fun b => [hexDigitChar (b / 16), hexDigitChar (b % 16)])).flatten)

/-- `DomainEntry::get_id` (src/main.rs lines 324-330): the hex-encoded
digest. -/
def DomainEntry.get_id (e : DomainEntry) : String := hexEncode e.digest

/-- `TryFrom<DomainBlock> for DomainEntry` (src/main.rs lines 298-322).
`none` models the `ValidationError` (`Err`) outcome: the hex digest fails
to decode, or the decoded bytes do not fit `[u8; 32]`. -/
def DomainEntry.tryFrom (value : DomainBlock) : Option DomainEntry :=
  match hexDecode value.digest with
  | none => none
  | some digest =>
    if digest.length = 32 then
      let domain_is_known := !containsStar value.domain
      some { digest := digest
             known_domain := if domain_is_known then some value.domain else none
             partial_domains := if domain_is_known then ∅ else {value.domain} }
    else none

/-- `MastodonBlockList` from src/main.rs: one fetched block list. -/
structure MastodonBlockList where
  domain : String
  list : List DomainBlock

/-- The `DomainEntry` portion of the database namespace, keyed by
`get_id`, modelled as an association list (the `BTreeMap` of
src/database.rs restricted to the `domain:` keys). -/
abbrev Store := List (String × DomainEntry)

/-- `DatabaseAccess::get::<DomainEntry>`. -/
def dbGet : Store → String → Option DomainEntry
  | [], _ => none
  | (k', v) :: rest, k => if k' = k then some v else dbGet rest k

/-- `DatabaseAccess::set` keyed by `get_id`: overwrite or insert. -/
def dbSet : Store → String → DomainEntry → Store
  | [], k, v => [(k, v)]
  | (k', v') :: rest, k, v =>
    if k' = k then (k, v) :: rest else (k', v') :: dbSet rest k v

/-- The inner loop of `process_db` (src/main.rs lines 111-120) over the
entries of one block list: convert (`try_into`, whose `?` aborts the whole
run on a `ValidationError` — modelled by `none`), merge with the stored
record if present (incoming record first), store. -/
def processBlocks : List DomainBlock → Store → Option Store
  | [], store => some store
  | blocked_item :: rest, store =>
    match DomainEntry.tryFrom blocked_item with
    | none => none
    | some incoming =>
      let d := match dbGet store incoming.get_id with
               | some existing => incoming.merge existing
               | none => incoming
      processBlocks rest (dbSet store d.get_id d)

/-- `process_db` (src/main.rs lines 107-124): fold the inner loop over the
fetched block lists, propagating the first conversion error. -/
def process_db : List MastodonBlockList → Store → Option Store
  | [], store => some store
  | l :: ls, store =>
    match processBlocks l.list store with
    | none => none
    | some store' => process_db ls store'

/-- `d.chars().filter(|c| *c == '*').count()` on a partial-domain
string. -/
def wildcardCount (s : String) : Nat := s.data.countP (fun c => c = '*')

/-- The sort key of `crack` (src/main.rs lines 142-147):
`x.partial_domains.iter().map(count).min()`.  The `BTreeSet` iterates in
ascending order (`Finset.sort`), and `Iterator::min` is `List.min?`:
`none` for a record with no partial domains. -/
def minWildcards (e : DomainEntry) : Option Nat :=
  ((e.partial_domains.sort (· ≤ ·)).map wildcardCount).min?

/-- Rust's `Ord` on `Option<usize>`, as used by `sort_by_key`: `None`
sorts before every `Some`. -/
def optNatLE : Option Nat → Option Nat → Bool
  | none, _ => true
  | some _, none => false
  | some a, some b => a ≤ b

/-- The selection and processing order of `crack` (src/main.rs lines
126-151): keep only the entries with no known domain
(`retain(|x| x.known_domain.is_none())`), then sort ascending by
`minWildcards` (`sort_by_key`, a stable sort — `mergeSort`). -/
def crackOrder (entries : List DomainEntry) : List DomainEntry :=
  (entries.filter (fun e => e.known_domain.isNone)).mergeSort
    (fun a b => optNatLE (minWildcards a) (minWildcards b))

/-! ## Lemmas about the candidate enumeration -/

lemma ALPHABET_length : ALPHABET.length = 36 := rfl

lemma alpha_getD_ne_42 : ∀ x : Nat, x < 36 → ALPHABET.getD x 0 ≠ 42 := by decide

lemma count42_cons (p : Nat) (ps : List Nat) :
    count42 (p :: ps) = count42 ps + (if p = 42 then 1 else 0) := by
  simp [count42, List.countP_cons]

lemma foldl_fillOnce_nil (cs : List Nat) : cs.foldl fillOnce [] = [] := by
  induction cs with
  | nil => rfl
  | cons c cs ih => simpa [fillOnce] using ih

lemma fillOnce_cons_ne (b c : Nat) (hb : b ≠ 42) (rest : List Nat) :
    fillOnce (b :: rest) c = b :: fillOnce rest c := by
  simp [fillOnce, hb]

lemma foldl_fillOnce_cons_ne (b : Nat) (hb : b ≠ 42) :
    ∀ (cs rest : List Nat), cs.foldl fillOnce (b :: rest) = b :: cs.foldl fillOnce rest := by
  intro cs
  induction cs with
  | nil => intro rest; rfl
  | cons c cs ih =>
    intro rest
    rw [List.foldl_cons, List.foldl_cons, fillOnce_cons_ne b c hb, ih]

lemma foldl_fillOnce_eq_fillWild :
    ∀ (P cs : List Nat), (∀ c ∈ cs, c ≠ 42) → cs.length = count42 P →
      cs.foldl fillOnce P = fillWild P cs := by
  intro P
  induction P with
  | nil => intro cs _ _; rw [foldl_fillOnce_nil]; rfl
  | cons p ps ih =>
    intro cs h hl
    by_cases hp : p = 42
    · subst hp
      rw [count42_cons, if_pos rfl] at hl
      cases cs with
      | nil => simp at hl
      | cons c cs' =>
        have hc : c ≠ 42 := h c (List.mem_cons_self c cs')
        have hstep : fillOnce (42 :: ps) c = c :: ps := by simp [fillOnce]
        rw [List.foldl_cons, hstep, foldl_fillOnce_cons_ne c hc cs' ps,
          ih cs' (fun x hx => h x (List.mem_cons_of_mem c hx)) (by simpa using hl)]
        simp [fillWild]
    · rw [count42_cons, if_neg hp, Nat.add_zero] at hl
      rw [foldl_fillOnce_cons_ne p hp cs ps, ih cs h hl]
      simp [fillWild, hp]

lemma digitsList_length : ∀ (k i : Nat), (digitsList i k).length = k := by
  intro k
  induction k with
  | zero => intro i; rfl
  | succ k ih => intro i; simp [digitsList, ih]

lemma digitsList_ne_42 : ∀ (k i : Nat), ∀ c ∈ digitsList i k, c ≠ 42 := by
  intro k
  induction k with
  | zero => intro i c hc; simp [digitsList] at hc
  | succ k ih =>
    intro i c hc
    simp only [digitsList, List.mem_cons] at hc
    rcases hc with hc | hc
    · subst hc; exact alpha_getD_ne_42 (i % 36) (Nat.mod_lt i (by norm_num))
    · exact ih (i / 36) c hc

lemma digitsList_getD : ∀ (k j i : Nat), j < k →
    (digitsList i k).getD j 0 = ALPHABET.getD (i / 36 ^ j % 36) 0 := by
  intro k
  induction k with
  | zero => intro j i h; omega
  | succ k ih =>
    intro j i h
    cases j with
    | zero => simp [digitsList]
    | succ j =>
      have hstep : (digitsList i (k + 1)).getD (j + 1) 0 = (digitsList (i / 36) k).getD j 0 := rfl
      rw [hstep, ih j (i / 36) (by omega), Nat.div_div_eq_div_mul, ← pow_succ']

lemma mapDigits_eq_digitsList : ∀ (k m : Nat),
    (List.range k).map (fun j => ALPHABET.getD (m / 36 ^ j % 36) 0) = digitsList m k := by
  intro k
  induction k with
  | zero => intro m; rfl
  | succ k ih =>
    intro m
    rw [List.range_succ_eq_map, List.map_cons, List.map_map]
    have hhead : ALPHABET.getD (m / 36 ^ 0 % 36) 0 = ALPHABET.getD (m % 36) 0 := by
      rw [pow_zero, Nat.div_one]
    have htail :
        ((fun j => ALPHABET.getD (m / 36 ^ j % 36) 0) ∘ Nat.succ)
          = (fun j => ALPHABET.getD (m / 36 / 36 ^ j % 36) 0) := by
      funext j
      simp only [Function.comp]
      rw [Nat.div_div_eq_div_mul, ← pow_succ']
    rw [hhead, htail, ih (m / 36)]
    rfl

lemma usizeDigits_length (i k : Nat) : (usizeDigits i k).length = k := by
  simp [usizeDigits]

lemma usizeDigits_ne_42 (i k : Nat) : ∀ c ∈ usizeDigits i k, c ≠ 42 := by
  intro c hc
  simp only [usizeDigits, List.mem_map, List.mem_range] at hc
  obtain ⟨j, _, rfl⟩ := hc
  exact alpha_getD_ne_42 _ (Nat.mod_lt _ (by decide))

lemma makeCandidate_eq_fillWild (P : List Nat) (i : Nat) :
    makeCandidate P i = fillWild P (usizeDigits i (count42 P)) := by
  have h1 : makeCandidate P i = (usizeDigits i (count42 P)).foldl fillOnce P := by
    rw [usizeDigits, List.foldl_map]
    rfl
  rw [h1,
    foldl_fillOnce_eq_fillWild P _ (usizeDigits_ne_42 i _) (usizeDigits_length i _)]

lemma usizePow_eq_pow {j : Nat} (hj : j ≤ 12) : usizePow 36 j = 36 ^ j := by
  apply Nat.mod_eq_of_lt
  calc 36 ^ j ≤ 36 ^ 12 := Nat.pow_le_pow_right (by norm_num) hj
    _ < 2 ^ 64 := by norm_num

lemma usizeDigits_eq_digitsList (k i : Nat) (hk : k ≤ 13) :
    usizeDigits i k = digitsList i k := by
  have hmap : usizeDigits i k
      = (List.range k).map (fun j => ALPHABET.getD (i / 36 ^ j % 36) 0) := by
    rw [usizeDigits]
    apply List.map_congr_left
    intro j hj
    have hj12 : j ≤ 12 := by
      have := List.mem_range.mp hj
      omega
    have hp : usizePow ALPHABET.length j = 36 ^ j := usizePow_eq_pow hj12
    rw [hp]
    rfl
  rw [hmap, mapDigits_eq_digitsList]

lemma makeCandidate_eq_fillWild_digits (P : List Nat) (i : Nat)
    (hk : count42 P ≤ 13) :
    makeCandidate P i = fillWild P (digitsList i (count42 P)) := by
  rw [makeCandidate_eq_fillWild, usizeDigits_eq_digitsList (count42 P) i hk]

lemma totalCount_eq_pow {P : List Nat} (hk : count42 P ≤ 12) :
    totalCount P = 36 ^ count42 P := usizePow_eq_pow hk

lemma fillWild_length : ∀ (P cs : List Nat), (fillWild P cs).length = P.length := by
  intro P
  induction P with
  | nil => intro cs; rfl
  | cons p ps ih =>
    intro cs
    by_cases hp : p = 42 <;> simp [fillWild, hp, ih]

lemma matchesMask_fillWild : ∀ (P cs : List Nat), matchesMask P (fillWild P cs) = true := by
  intro P
  induction P with
  | nil => intro cs; rfl
  | cons p ps ih =>
    intro cs
    by_cases hp : p = 42 <;> simp [fillWild, matchesMask, hp, ih]

lemma matchesMask_length : ∀ (P D : List Nat), matchesMask P D = true → D.length = P.length := by
  intro P
  induction P with
  | nil =>
    intro D h
    cases D with
    | nil => rfl
    | cons d ds => simp [matchesMask] at h
  | cons p ps ih =>
    intro D h
    cases D with
    | nil => simp [matchesMask] at h
    | cons d ds =>
      simp only [matchesMask, Bool.and_eq_true] at h
      simp [ih ds h.2]

lemma wildChars_length : ∀ (P D : List Nat), matchesMask P D = true →
    (wildChars P D).length = count42 P := by
  intro P
  induction P with
  | nil =>
    intro D h
    cases D with
    | nil => rfl
    | cons d ds => simp [matchesMask] at h
  | cons p ps ih =>
    intro D h
    cases D with
    | nil => simp [matchesMask] at h
    | cons d ds =>
      simp only [matchesMask, Bool.and_eq_true] at h
      by_cases hp : p = 42 <;> simp [wildChars, count42_cons, hp, ih ds h.2]

lemma fillWild_wildChars : ∀ (P D : List Nat), matchesMask P D = true →
    fillWild P (wildChars P D) = D := by
  intro P
  induction P with
  | nil =>
    intro D h
    cases D with
    | nil => rfl
    | cons d ds => simp [matchesMask] at h
  | cons p ps ih =>
    intro D h
    cases D with
    | nil => simp [matchesMask] at h
    | cons d ds =>
      simp only [matchesMask, Bool.and_eq_true, Bool.or_eq_true, decide_eq_true_eq] at h
      by_cases hp : p = 42
      · simp [wildChars, fillWild, hp, ih ds h.2]
      · have hpd : p = d := h.1.resolve_left hp
        subst hpd
        simp [wildChars, fillWild, hp, ih ds h.2]

lemma exists_alpha_index : ∀ d ∈ ALPHABET, ∃ x, x < 36 ∧ ALPHABET.getD x 0 = d := by
  intro d hd
  obtain ⟨n, hn⟩ := List.mem_iff_get.mp hd
  refine ⟨n.1, lt_of_lt_of_eq n.2 ALPHABET_length, ?_⟩
  rw [List.getD_eq_getElem?_getD, List.getElem?_eq_getElem n.2]
  simpa [List.get_eq_getElem] using hn

lemma exists_digits : ∀ (ds : List Nat), (∀ d ∈ ds, d ∈ ALPHABET) →
    ∃ i, i < 36 ^ ds.length ∧ digitsList i ds.length = ds := by
  intro ds
  induction ds with
  | nil => intro _; exact ⟨0, by norm_num, rfl⟩
  | cons d rest ih =>
    intro h
    obtain ⟨x, hx, hxd⟩ := exists_alpha_index d (h d (List.mem_cons_self d rest))
    obtain ⟨e, he, hed⟩ := ih (fun d' hd' => h d' (List.mem_cons_of_mem d hd'))
    refine ⟨x + 36 * e, ?_, ?_⟩
    · have h2 : 36 * (e + 1) ≤ 36 * 36 ^ rest.length :=
        Nat.mul_le_mul_left 36 (Nat.succ_le_of_lt he)
      calc x + 36 * e < 36 * (e + 1) := by omega
        _ ≤ 36 * 36 ^ rest.length := h2
        _ = 36 ^ (rest.length + 1) := (pow_succ' 36 rest.length).symm
        _ = 36 ^ (d :: rest).length := by rw [List.length_cons]
    · show digitsList (x + 36 * e) (rest.length + 1) = d :: rest
      have hm : (x + 36 * e) % 36 = x := by
        rw [Nat.add_mul_mod_self_left, Nat.mod_eq_of_lt hx]
      have hdv : (x + 36 * e) / 36 = e := by
        rw [Nat.add_mul_div_left x e (by norm_num), Nat.div_eq_of_lt hx, Nat.zero_add]
      simp only [digitsList, hm, hdv, hxd, hed]

lemma exists_candidate_index (P D : List Nat) (hk : count42 P ≤ 13)
    (hm : matchesMask P D = true)
    (ha : ∀ d ∈ wildChars P D, d ∈ ALPHABET) :
    ∃ i, i < 36 ^ count42 P ∧ makeCandidate P i = D := by
  obtain ⟨i, hi, hd⟩ := exists_digits (wildChars P D) ha
  rw [wildChars_length P D hm] at hi hd
  exact ⟨i, hi, by rw [makeCandidate_eq_fillWild_digits P i hk, hd,
    fillWild_wildChars P D hm]⟩

lemma fillWild_getD_not42 : ∀ (P cs : List Nat) (t : Nat), P.getD t 0 ≠ 42 →
    (fillWild P cs).getD t 0 = P.getD t 0 := by
  intro P
  induction P with
  | nil => intro cs t _; rfl
  | cons p ps ih =>
    intro cs t h
    by_cases hp : p = 42
    · cases t with
      | zero => exact absurd (by simpa using hp) h
      | succ t => simpa [fillWild, hp] using ih cs.tail t (by simpa using h)
    · cases t with
      | zero => simp [fillWild, hp]
      | succ t => simpa [fillWild, hp] using ih cs t (by simpa using h)

lemma getD_tail_succ (cs : List Nat) (j : Nat) : cs.tail.getD j 0 = cs.getD (j + 1) 0 := by
  cases cs <;> rfl

lemma headD_eq_getD_zero (cs : List Nat) : cs.headD 0 = cs.getD 0 0 := by
  cases cs <;> rfl

lemma fillWild_getD_wildPos : ∀ (P cs : List Nat) (j pos : Nat),
    (wildcardPositions P)[j]? = some pos → (fillWild P cs).getD pos 0 = cs.getD j 0 := by
  intro P
  induction P with
  | nil => intro cs j pos h; simp [wildcardPositions] at h
  | cons p ps ih =>
    intro cs j pos h
    by_cases hp : p = 42
    · simp only [wildcardPositions, if_pos hp] at h
      cases j with
      | zero =>
        simp only [List.getElem?_cons_zero, Option.some_inj] at h
        subst h
        simpa [fillWild, hp] using headD_eq_getD_zero cs
      | succ j =>
        simp only [List.getElem?_cons_succ, List.getElem?_map] at h
        obtain ⟨pos', hpos', rfl⟩ := Option.map_eq_some'.mp h
        have := ih cs.tail j pos' hpos'
        simpa [fillWild, hp, getD_tail_succ] using this
    · simp only [wildcardPositions, if_neg hp, List.getElem?_map] at h
      obtain ⟨pos', hpos', rfl⟩ := Option.map_eq_some'.mp h
      simpa [fillWild, hp] using ih cs j pos' hpos'

lemma wildcardPositions_length : ∀ P : List Nat,
    (wildcardPositions P).length = count42 P := by
  intro P
  induction P with
  | nil => rfl
  | cons p ps ih =>
    by_cases hp : p = 42 <;> simp [wildcardPositions, count42_cons, hp, ih]

/-! ## The search claims -/

/-- C1 (amended): for every mask `P` of length at most 32 bytes with at
most 12 wildcards (so the `usize` total-count and divisor powers do not
overflow and the space is enumerated in full) and every domain `D` that
matches `P` positionally, whose bytes at the wildcard positions all belong
to the fixed 36-symbol alphabet, and such that no other candidate of the
enumerated space shares `D`'s SHA-256 digest, `brute_force(P, sha256(D))`
returns `Some(D)`. -/
theorem brute_force_complete (P D : List Nat) (hlen : P.length ≤ 32)
    (hk : count42 P ≤ 12)
    (hm : matchesMask P D = true)
    (ha : ∀ d ∈ wildChars P D, d ∈ ALPHABET)
    (huniq : ∀ i, i < totalCount P → sha256 (makeCandidate P i) = sha256 D →
      makeCandidate P i = D) :
    brute_force P (sha256 D) = some (some D) := by
  obtain ⟨i0, hi0', hcand⟩ := exists_candidate_index P D (by omega) hm ha
  have hi0 : i0 < totalCount P := by rw [totalCount_eq_pow hk]; exact hi0'
  have hnotlong : ¬ P.length > 32 := by omega
  have hmem : i0 ∈ List.range (totalCount P) := List.mem_range.mpr hi0
  have hf : tryIndex P (sha256 D) i0 = some D := by simp [tryIndex, hcand]
  cases hres : (List.range (totalCount P)).findSome? (tryIndex P (sha256 D)) with
  | none =>
    have := List.findSome?_eq_none_iff.mp hres i0 hmem
    rw [hf] at this
    cases this
  | some y =>
    obtain ⟨a, ha', hay⟩ := List.exists_of_findSome?_eq_some hres
    have haT : a < totalCount P := List.mem_range.mp ha'
    by_cases hsha : sha256 (makeCandidate P a) = sha256 D
    · have hy : y = makeCandidate P a := by
        simp [tryIndex, hsha] at hay
        exact hay.symm
      rw [brute_force, if_neg hnotlong, hres, hy, huniq a haT hsha]
    · simp [tryIndex, hsha] at hay

lemma fillWild_replicate42 : ∀ (k : Nat) (cs : List Nat), cs.length = k →
    fillWild (List.replicate k 42) cs = cs := by
  intro k
  induction k with
  | zero =>
    intro cs h
    rw [List.length_eq_zero] at h
    subst h
    rfl
  | succ k ih =>
    intro cs h
    cases cs with
    | nil => simp at h
    | cons c cs' =>
      simp only [List.replicate_succ, fillWild, if_pos rfl]
      simp [ih cs' (by simpa using h)]

lemma alpha_getD_eq_122 : ∀ x : Nat, x < 36 → ALPHABET.getD x 0 = 122 → x = 25 := by
  decide

/-- The overflow gap: the 13-wildcard mask's `usize` total count wraps to
about 2.7% of the true space, and the all-`'z'` assignment (enumeration
index `≥ 25 * 36^12`) lies beyond the wrapped bound, so the program never
constructs it. -/
lemma overflow_not_enumerated :
    ∀ i, i < totalCount (List.replicate 13 42) →
      makeCandidate (List.replicate 13 42) i ≠ List.replicate 13 122 := by
  intro i hi heq
  have hc13 : count42 (List.replicate 13 42) = 13 := by decide
  have htc : totalCount (List.replicate 13 42) = 4561031516192243712 := by decide
  have h1 : makeCandidate (List.replicate 13 42) i = digitsList i 13 := by
    rw [makeCandidate_eq_fillWild_digits _ i (by decide), hc13,
      fillWild_replicate42 13 _ (digitsList_length 13 i)]
  rw [h1] at heq
  have h2 : (digitsList i 13).getD 12 0 = 122 := by
    rw [heq]
    decide
  have h3 : (digitsList i 13).getD 12 0 = ALPHABET.getD (i / 36 ^ 12 % 36) 0 :=
    digitsList_getD 13 12 i (by omega)
  have h4 : i / 36 ^ 12 % 36 = 25 :=
    alpha_getD_eq_122 _ (Nat.mod_lt _ (by norm_num)) (by rw [← h3, h2])
  have h5 : 25 ≤ i / 36 ^ 12 := by
    have := Nat.mod_le (i / 36 ^ 12) 36
    omega
  have h6 : 25 * 36 ^ 12 ≤ i := (Nat.le_div_iff_mul_le (by positivity)).mp h5
  have h7 : (25 * 36 ^ 12 : Nat) = 118459533458040422400 := by norm_num
  rw [htc] at hi
  omega

set_option maxRecDepth 100000 in
set_option maxHeartbeats 4000000 in
/-- C1 counterexample, two in-domain instances.  First, the mask `"a*b"`
and the domain `"a.b"` match positionally and fit the 32-byte buffer, yet
the search returns the no-match outcome `some none` rather than
`Some("a.b")`: the byte `'.'` at the masked position is not in the
36-symbol candidate alphabet.  Second, for the 13-wildcard mask and the
all-`'z'` domain — masked bytes all inside the alphabet — the wrapping
`usize` power truncates the enumeration below that domain's index, so the
search cannot return `Some` of it. -/
theorem brute_force_incomplete_cex :
    (matchesMask [97, 42, 98] [97, 46, 98] = true
      ∧ ([97, 42, 98] : List Nat).length ≤ 32
      ∧ brute_force [97, 42, 98] (sha256 [97, 46, 98]) = some none
      ∧ (some none : Option (Option (List Nat))) ≠ some (some [97, 46, 98]))
    ∧ (matchesMask (List.replicate 13 42) (List.replicate 13 122) = true
      ∧ (List.replicate 13 42 : List Nat).length ≤ 32
      ∧ (∀ d ∈ wildChars (List.replicate 13 42) (List.replicate 13 122), d ∈ ALPHABET)
      ∧ brute_force (List.replicate 13 42) (sha256 (List.replicate 13 122))
          ≠ some (some (List.replicate 13 122))) := by
  constructor
  · decide
  · refine ⟨by decide, by decide, by decide, ?_⟩
    intro h
    rw [brute_force, if_neg (by decide)] at h
    injection h with h
    obtain ⟨a, hamem, ha⟩ := List.exists_of_findSome?_eq_some h
    have haT : a < totalCount (List.replicate 13 42) := List.mem_range.mp hamem
    by_cases hsha : sha256 (makeCandidate (List.replicate 13 42) a)
        = sha256 (List.replicate 13 122)
    · have hcand : makeCandidate (List.replicate 13 42) a = List.replicate 13 122 := by
        simp only [tryIndex] at ha
        rw [if_pos hsha] at ha
        exact Option.some.inj ha
      exact overflow_not_enumerated a haT hcand
    · simp only [tryIndex] at ha
      rw [if_neg hsha] at ha
      cases ha

set_option maxRecDepth 100000 in
set_option maxHeartbeats 2000000 in
/-- Witness for C1 at the wildcard-free mask `"a"` and domain `"a"`: the
single-candidate space is `{"a"}` itself. -/
theorem brute_force_complete_witness :
    brute_force [97] (sha256 [97]) = some (some [97]) :=
  brute_force_complete [97] [97] (by decide) (by decide) (by decide) (by decide)
    (by decide)

/-- C2: whenever `brute_force(P, digest)` returns a found string `s`, then
`s` has the same length as `P`, agrees with `P` at every non-wildcard
position, and hashes to the digest; and when no candidate in the enumerated
space matches, the search returns the distinct no-match outcome
`some none` (`Option::None` in the source) instead of an error or panic. -/
theorem brute_force_sound_and_exhaustive (P dig : List Nat) :
    (∀ s, brute_force P dig = some (some s) →
      s.length = P.length ∧ matchesMask P s = true ∧ sha256 s = dig)
    ∧ (P.length ≤ 32 →
        (∀ i, i < totalCount P → sha256 (makeCandidate P i) ≠ dig) →
        brute_force P dig = some none) := by
  constructor
  · intro s hs
    by_cases hlong : P.length > 32
    · rw [brute_force, if_pos hlong] at hs
      cases hs
    · rw [brute_force, if_neg hlong] at hs
      injection hs with hres
      obtain ⟨a, _, hay⟩ := List.exists_of_findSome?_eq_some hres
      by_cases hsha : sha256 (makeCandidate P a) = dig
      · have hy : s = makeCandidate P a := by
          simp [tryIndex, hsha] at hay
          exact hay.symm
        subst hy
        refine ⟨?_, ?_, hsha⟩
        · rw [makeCandidate_eq_fillWild]
          exact fillWild_length P _
        · rw [makeCandidate_eq_fillWild]
          exact matchesMask_fillWild P _
      · simp [tryIndex, hsha] at hay
  · intro hlen hno
    rw [brute_force, if_neg (by omega)]
    have hnone : (List.range (totalCount P)).findSome? (tryIndex P dig) = none :=
      List.findSome?_eq_none_iff.mpr (fun x hx => by
        simp [tryIndex, hno x (List.mem_range.mp hx)])
    rw [hnone]

/-- C3 (amended): for a mask with `k ≤ 12` wildcards — where the `usize`
powers of the source do not overflow — the search enumerates exactly
`36 ^ k` candidate indices, and the candidate at index `i` carries
`ALPHABET[(i / 36^j) % 36]` at the `j`-th wildcard position (left to
right) while keeping every non-wildcard position of the mask unchanged;
for `k ≥ 13` the enumerated count is instead `36 ^ k` wrapped mod `2^64`
and from `k ≥ 14` the digit divisors wrap too (see the counterexample). -/
theorem enumeration_scheme (P dig : List Nat) (i j pos : Nat)
    (hk : count42 P ≤ 12)
    (hi : i < totalCount P) (hj : (wildcardPositions P)[j]? = some pos) :
    totalCount P = 36 ^ count42 P
    ∧ (searchSpace P).length = 36 ^ count42 P
    ∧ brute_force P dig = (if P.length > 32 then none
        else some ((searchSpace P).findSome?
          (fun c => if sha256 c = dig then some c else none)))
    ∧ (∀ t, t < P.length → P.getD t 0 ≠ 42 →
        (makeCandidate P i).getD t 0 = P.getD t 0)
    ∧ (makeCandidate P i).getD pos 0 = ALPHABET.getD (i / 36 ^ j % 36) 0 := by
  refine ⟨totalCount_eq_pow hk, ?_, ?_, ?_, ?_⟩
  · rw [searchSpace, List.length_map, List.length_range]
    exact totalCount_eq_pow hk
  · rw [brute_force]
    by_cases hlong : P.length > 32
    · rw [if_pos hlong, if_pos hlong]
    · rw [if_neg hlong, if_neg hlong, searchSpace, List.findSome?_map]
      rfl
  · intro t _ hne
    rw [makeCandidate_eq_fillWild]
    exact fillWild_getD_not42 P _ t hne
  · have hjlen : j < count42 P := by
      by_contra hnot
      have hnone : (wildcardPositions P)[j]? = none :=
        List.getElem?_eq_none (by rw [wildcardPositions_length]; omega)
      rw [hj] at hnone
      cases hnone
    rw [makeCandidate_eq_fillWild_digits P i (by omega),
      fillWild_getD_wildPos P _ j pos hj, digitsList_getD (count42 P) j i hjlen]

set_option maxRecDepth 100000 in
/-- C3 counterexample: for the in-domain 13-wildcard mask the program's
`total_count` is the wrapped `36 ^ 13 % 2^64`, not `36 ^ 13` — the list of
enumerated indices is short of the claimed count — and for a 14-wildcard
mask the wrapped digit divisor makes the candidate at in-range index
`36 ^ 13 % 2^64` carry `ALPHABET[1]` instead of the claimed
`ALPHABET[(i / 36^13) % 36] = ALPHABET[0]` at the 13th wildcard
position. -/
theorem enumeration_scheme_cex :
    count42 (List.replicate 13 42) = 13
    ∧ totalCount (List.replicate 13 42) ≠ 36 ^ 13
    ∧ totalCount (List.replicate 13 42) = 36 ^ 13 % 2 ^ 64
    ∧ (searchSpace (List.replicate 13 42)).length ≠ 36 ^ 13
    ∧ count42 (List.replicate 14 42) = 14
    ∧ (wildcardPositions (List.replicate 14 42))[13]? = some 13
    ∧ 4561031516192243712 < totalCount (List.replicate 14 42)
    ∧ (makeCandidate (List.replicate 14 42) 4561031516192243712).getD 13 0
        ≠ ALPHABET.getD (4561031516192243712 / 36 ^ 13 % 36) 0 := by
  refine ⟨by decide, by decide, by decide, ?_, by decide, by decide, by decide,
    by decide⟩
  rw [searchSpace, List.length_map, List.length_range]
  decide

/-- C8: a mask longer than the fixed 32-byte buffer hits the fatal
`panic!` branch (modelled by the outer `none`), and for every mask of at
most 32 bytes the search always returns a value (`some r`), the panic
branch being unreachable. -/
theorem brute_force_length_precondition (P dig : List Nat) :
    (P.length > 32 → brute_force P dig = none)
    ∧ (P.length ≤ 32 → ∃ r : Option (List Nat), brute_force P dig = some r) := by
  constructor
  · intro h
    rw [brute_force, if_pos h]
  · intro h
    exact ⟨(List.range (totalCount P)).findSome? (tryIndex P dig),
      by rw [brute_force, if_neg (by omega)]⟩

set_option maxRecDepth 100000 in
set_option maxHeartbeats 2000000 in
/-- Witness for C2: the found string for the wildcard-free mask `"a"`
satisfies the soundness conjunct, and a digest matched by no candidate
yields the `some none` outcome. -/
theorem brute_force_sound_and_exhaustive_witness :
    (([97] : List Nat).length = ([97] : List Nat).length
      ∧ matchesMask [97] [97] = true ∧ sha256 [97] = sha256 [97])
    ∧ brute_force [97] [0] = some none :=
  ⟨(brute_force_sound_and_exhaustive [97] (sha256 [97])).1 [97] (by decide),
   (brute_force_sound_and_exhaustive [97] [0]).2 (by decide) (by decide)⟩

set_option maxRecDepth 100000 in
/-- Witness for C3 at the mask `"a*"`, index 35 and wildcard 0 at
position 1. -/
theorem enumeration_scheme_witness :
    totalCount [97, 42] = 36 ^ count42 [97, 42]
    ∧ (searchSpace [97, 42]).length = 36 ^ count42 [97, 42]
    ∧ brute_force [97, 42] [] = (if ([97, 42] : List Nat).length > 32 then none
        else some ((searchSpace [97, 42]).findSome?
          (fun c => if sha256 c = [] then some c else none)))
    ∧ (∀ t, t < ([97, 42] : List Nat).length → ([97, 42] : List Nat).getD t 0 ≠ 42 →
        (makeCandidate [97, 42] 35).getD t 0 = ([97, 42] : List Nat).getD t 0)
    ∧ (makeCandidate [97, 42] 35).getD 1 0 = ALPHABET.getD (35 / 36 ^ 0 % 36) 0 :=
  enumeration_scheme [97, 42] [] 35 0 1 (by decide) (by decide) (by decide)

/-- Witness for C8 at a 33-byte mask and at a 1-byte mask. -/
theorem brute_force_length_precondition_witness :
    brute_force (List.replicate 33 97) [] = none
    ∧ ∃ r : Option (List Nat), brute_force [97] [] = some r :=
  ⟨(brute_force_length_precondition (List.replicate 33 97) []).1 (by decide),
   (brute_force_length_precondition [97] []).2 (by decide)⟩

/-! ## The merge and builder claims -/

/-- C4: `merge` keeps the first argument's `known_domain` when present and
falls back to the second's otherwise; with two differing known domains the
two orders of `merge` produce different records. -/
theorem merge_known_domain_precedence :
    (∀ (a b : DomainEntry) (d : String),
      a.known_domain = some d → (a.merge b).known_domain = some d)
    ∧ (∀ a b : DomainEntry,
      a.known_domain = none → (a.merge b).known_domain = b.known_domain)
    ∧ (∃ a b : DomainEntry, a.digest = b.digest
        ∧ a.known_domain ≠ b.known_domain
        ∧ a.known_domain.isSome = true ∧ b.known_domain.isSome = true
        ∧ (a.merge b).known_domain ≠ (b.merge a).known_domain
        ∧ a.merge b ≠ b.merge a) := by
  refine ⟨?_, ?_, ?_⟩
  · intro a b d h
    simp [DomainEntry.merge, Option.or, h]
  · intro a b h
    simp [DomainEntry.merge, Option.or, h]
  · exact ⟨⟨[0], some "a.example", ∅⟩, ⟨[0], some "b.example", ∅⟩, by decide⟩

/-- Witness for C4's two conditional components at concrete records. -/
theorem merge_known_domain_precedence_witness :
    ((⟨[0], some "x.example", ∅⟩ : DomainEntry).merge
        ⟨[0], some "y.example", ∅⟩).known_domain = some "x.example"
    ∧ ((⟨[0], none, ∅⟩ : DomainEntry).merge
        ⟨[0], some "y.example", ∅⟩).known_domain = some "y.example" :=
  ⟨merge_known_domain_precedence.1 ⟨[0], some "x.example", ∅⟩
      ⟨[0], some "y.example", ∅⟩ "x.example" rfl,
   merge_known_domain_precedence.2.1 ⟨[0], none, ∅⟩ ⟨[0], some "y.example", ∅⟩ rfl⟩

/-- C5: the `partial_domains` component of `merge` is the set union of the
two operands' partial domains, and it is commutative and associative. -/
theorem merge_partial_domains_union :
    (∀ a b : DomainEntry,
      (a.merge b).partial_domains = a.partial_domains ∪ b.partial_domains)
    ∧ (∀ a b : DomainEntry,
      (a.merge b).partial_domains = (b.merge a).partial_domains)
    ∧ (∀ a b c : DomainEntry,
      ((a.merge b).merge c).partial_domains = (a.merge (b.merge c)).partial_domains) :=
  ⟨fun _ _ => rfl,
   fun a b => Finset.union_comm a.partial_domains b.partial_domains,
   fun a b c => Finset.union_assoc a.partial_domains b.partial_domains c.partial_domains⟩

/-- C6: building a record from a block-list entry fails exactly when the
hex digest fails to decode or decodes to a length other than 32 bytes; on
success a wildcard-free domain becomes the known domain with an empty
partial set, and a masked domain becomes the sole partial domain with no
known domain. -/
theorem tryFrom_spec (b : DomainBlock) :
    (DomainEntry.tryFrom b = none ↔
      hexDecode b.digest = none
      ∨ ∃ bs, hexDecode b.digest = some bs ∧ bs.length ≠ 32)
    ∧ (∀ e, DomainEntry.tryFrom b = some e →
        e.digest.length = 32
        ∧ (containsStar b.domain = false →
            e.known_domain = some b.domain ∧ e.partial_domains = ∅)
        ∧ (containsStar b.domain = true →
            e.known_domain = none ∧ e.partial_domains = {b.domain})) := by
  constructor
  · cases hdec : hexDecode b.digest with
    | none => simp [DomainEntry.tryFrom, hdec]
    | some bs =>
      by_cases hl : bs.length = 32
      · simp [DomainEntry.tryFrom, hdec, hl]
      · simp only [DomainEntry.tryFrom, hdec, if_neg hl]
        simp [hl]
  · intro e he
    cases hdec : hexDecode b.digest with
    | none =>
      simp only [DomainEntry.tryFrom, hdec] at he
      cases he
    | some bs =>
      by_cases hl : bs.length = 32
      · simp only [DomainEntry.tryFrom, hdec, if_pos hl] at he
        injection he with he
        subst he
        refine ⟨hl, ?_, ?_⟩
        · intro hc; simp [hc]
        · intro hc; simp [hc]
      · simp only [DomainEntry.tryFrom, hdec, if_neg hl] at he
        cases he

/-- Witness for C6: a malformed digest is rejected, and a masked domain
with a well-formed 32-byte digest yields a record with no known domain and
the mask as sole partial domain. -/
theorem tryFrom_spec_witness :
    DomainEntry.tryFrom ⟨"bad.example", "zz", DomainBlockSeverity.suspend, none⟩ = none
    ∧ ((⟨List.replicate 32 0, none, {"ex*mple.com"}⟩ : DomainEntry).known_domain = none
        ∧ (⟨List.replicate 32 0, none, {"ex*mple.com"}⟩ : DomainEntry).partial_domains
            = {"ex*mple.com"}) :=
  ⟨(tryFrom_spec ⟨"bad.example", "zz", DomainBlockSeverity.suspend, none⟩).1.mpr
      (Or.inl (by decide)),
   ((tryFrom_spec ⟨"ex*mple.com",
        "0000000000000000000000000000000000000000000000000000000000000000",
        DomainBlockSeverity.suspend, none⟩).2
      ⟨List.replicate 32 0, none, {"ex*mple.com"}⟩ (by decide)).2.2 (by decide)⟩

/-! ## The processing claims -/

lemma dbGet_dbSet : ∀ (store : Store) (k : String) (v : DomainEntry),
    dbGet (dbSet store k v) k = some v := by
  intro store
  induction store with
  | nil => intro k v; simp [dbSet, dbGet]
  | cons p rest ih =>
    intro k v
    obtain ⟨k', v'⟩ := p
    by_cases hk : k' = k
    · simp [dbSet, hk, dbGet]
    · simp [dbSet, dbGet, hk, ih]

lemma tryFrom_known_domain (b : DomainBlock) (e : DomainEntry)
    (h : DomainEntry.tryFrom b = some e) :
    e.known_domain = (if containsStar b.domain then none else some b.domain) := by
  cases hdec : hexDecode b.digest with
  | none =>
    simp only [DomainEntry.tryFrom, hdec] at h
    cases h
  | some bs =>
    by_cases hl : bs.length = 32
    · simp only [DomainEntry.tryFrom, hdec, if_pos hl] at h
      injection h with h
      subst h
      by_cases hc : containsStar b.domain <;> simp [hc]
    · simp only [DomainEntry.tryFrom, hdec, if_neg hl] at h
      cases h

/-- C7 (amended): a ValidationError raised while converting one block-list
entry is not isolated to that entry: the `?` on `try_into` aborts
`process_db` for the whole batch, and the remaining entries are never
processed. -/
theorem validation_error_aborts_batch (b : DomainBlock)
    (hbad : DomainEntry.tryFrom b = none) :
    ∀ (rest : List DomainBlock) (store : Store) (src : String)
      (more : List MastodonBlockList),
      processBlocks (b :: rest) store = none
      ∧ process_db (⟨src, b :: rest⟩ :: more) store = none := by
  intro rest store src more
  have h1 : processBlocks (b :: rest) store = none := by
    simp [processBlocks, hbad]
  exact ⟨h1, by simp [process_db, h1]⟩

/-- C7 counterexample: a batch holding a malformed entry followed by a
well-formed one; `process_db` returns the error outcome (`none`) and the
valid second entry is never stored, refuting the claim that processing
continues with the remaining entries. -/
theorem validation_error_not_isolated_cex :
    DomainEntry.tryFrom
        ⟨"good.example",
         "0000000000000000000000000000000000000000000000000000000000000000",
         DomainBlockSeverity.silence, none⟩
      = some ⟨List.replicate 32 0, some "good.example", ∅⟩
    ∧ process_db
        [⟨"src.example",
          [⟨"bad.example", "zz", DomainBlockSeverity.suspend, none⟩,
           ⟨"good.example",
            "0000000000000000000000000000000000000000000000000000000000000000",
            DomainBlockSeverity.silence, none⟩]⟩] []
      = none := by decide

/-- Witness for C7's amended theorem at a concrete malformed entry. -/
theorem validation_error_aborts_batch_witness :
    processBlocks
        [⟨"bad.example", "zz", DomainBlockSeverity.suspend, none⟩,
         ⟨"fine.example",
          "0000000000000000000000000000000000000000000000000000000000000000",
          DomainBlockSeverity.silence, none⟩] []
      = none
    ∧ process_db
        [⟨"src2.example",
          [⟨"bad.example", "zz", DomainBlockSeverity.suspend, none⟩,
           ⟨"fine.example",
            "0000000000000000000000000000000000000000000000000000000000000000",
            DomainBlockSeverity.silence, none⟩]⟩] []
      = none :=
  validation_error_aborts_batch
    ⟨"bad.example", "zz", DomainBlockSeverity.suspend, none⟩ (by decide)
    [⟨"fine.example",
      "0000000000000000000000000000000000000000000000000000000000000000",
      DomainBlockSeverity.silence, none⟩] [] "src2.example" []

lemma optNatLE_trans (a b c : Option Nat) (hab : optNatLE a b = true)
    (hbc : optNatLE b c = true) : optNatLE a c = true := by
  cases a <;> cases b <;> cases c <;> simp [optNatLE] at * <;> omega

lemma optNatLE_total (a b : Option Nat) : (optNatLE a b || optNatLE b a) = true := by
  cases a <;> cases b <;> simp [optNatLE] <;> omega

/-- C9: `crack` restricts its work list to the records with no known
domain, keeps exactly those (as a permutation of the filtered list), and
processes them sorted ascending by the minimum wildcard count over each
record's partial masks (`None` keys — empty partial sets — sort first, as
Rust's `Option` ordering does). -/
theorem crack_order_spec (entries : List DomainEntry) :
    (∀ e ∈ crackOrder entries, e.known_domain = none)
    ∧ (crackOrder entries).Perm
        (entries.filter (fun e => e.known_domain.isNone))
    ∧ (crackOrder entries).Pairwise
        (fun a b => optNatLE (minWildcards a) (minWildcards b) = true)
    ∧ (∀ m n : Nat, optNatLE (some m) (some n) = true ↔ m ≤ n) := by
  have hperm : (crackOrder entries).Perm
      (entries.filter (fun e => e.known_domain.isNone)) :=
    List.mergeSort_perm _ _
  refine ⟨?_, hperm, ?_, ?_⟩
  · intro e he
    have hmem : e ∈ entries.filter (fun e => e.known_domain.isNone) :=
      hperm.mem_iff.mp he
    exact Option.isNone_iff_eq_none.mp (List.mem_filter.mp hmem).2
  · exact @List.sorted_mergeSort DomainEntry
      (fun a b => optNatLE (minWildcards a) (minWildcards b))
      (fun a b c hab hbc => optNatLE_trans _ _ _ hab hbc)
      (fun a b => optNatLE_total _ _)
      (entries.filter (fun e => e.known_domain.isNone))
  · intro m n
    simp [optNatLE]

/-- C10: `process_db` calls `merge` with the incoming record (built from
the block-list entry) first and the stored record second; hence an
incoming unmasked domain replaces the stored `known_domain`, while an
incoming mask-only observation leaves the stored `known_domain`
unchanged. -/
theorem process_db_merge_order (b : DomainBlock) (incoming existing : DomainEntry)
    (store : Store)
    (h1 : DomainEntry.tryFrom b = some incoming)
    (h2 : dbGet store incoming.get_id = some existing) :
    processBlocks [b] store
        = some (dbSet store incoming.get_id (incoming.merge existing))
    ∧ dbGet (dbSet store incoming.get_id (incoming.merge existing)) incoming.get_id
        = some (incoming.merge existing)
    ∧ (containsStar b.domain = false →
        (incoming.merge existing).known_domain = some b.domain)
    ∧ (containsStar b.domain = true →
        (incoming.merge existing).known_domain = existing.known_domain) := by
  have hid : (incoming.merge existing).get_id = incoming.get_id := rfl
  refine ⟨?_, dbGet_dbSet store incoming.get_id (incoming.merge existing), ?_, ?_⟩
  · simp [processBlocks, h1, h2, hid]
  · intro hc
    have hk := tryFrom_known_domain b incoming h1
    rw [hc] at hk
    simp only [Bool.false_eq_true, if_false] at hk
    simp [DomainEntry.merge, Option.or, hk]
  · intro hc
    have hk := tryFrom_known_domain b incoming h1
    rw [hc] at hk
    simp only [if_true] at hk
    simp [DomainEntry.merge, Option.or, hk]

/-- Witness for C10: an incoming unmasked observation for a digest whose
stored record already has a (different) known domain replaces it. -/
theorem process_db_merge_order_witness :
    ((⟨List.replicate 32 0, some "new.example", ∅⟩ : DomainEntry).merge
        ⟨List.replicate 32 0, some "old.example", {"n*w.example"}⟩).known_domain
      = some "new.example" :=
  (process_db_merge_order
    ⟨"new.example",
     "0000000000000000000000000000000000000000000000000000000000000000",
     DomainBlockSeverity.suspend, none⟩
    ⟨List.replicate 32 0, some "new.example", ∅⟩
    ⟨List.replicate 32 0, some "old.example", {"n*w.example"}⟩
    [("0000000000000000000000000000000000000000000000000000000000000000",
      ⟨List.replicate 32 0, some "old.example", {"n*w.example"}⟩)]
    (by decide) (by decide)).2.2.1 (by decide)

set_option maxRecDepth 100000 in
set_option maxHeartbeats 1000000 in
/-- FIPS 180-4 test vector: SHA-256 of `"abc"`, validating the embedded
hash against the standard the `sha2` crate implements. -/
theorem sha256_vector_abc :
    sha256 [97, 98, 99]
      = [0xba, 0x78, 0x16, 0xbf, 0x8f, 0x01, 0xcf, 0xea, 0x41, 0x41, 0x40, 0xde,
         0x5d, 0xae, 0x22, 0x23, 0xb0, 0x03, 0x61, 0xa3, 0x96, 0x17, 0x7a, 0x9c,
         0xb4, 0x10, 0xff, 0x61, 0xf2, 0x00, 0x15, 0xad] := by
  decide

set_option maxRecDepth 100000 in
set_option maxHeartbeats 1000000 in
/-- FIPS 180-4 test vector: SHA-256 of the empty message. -/
theorem sha256_vector_empty :
    sha256 []
      = [0xe3, 0xb0, 0xc4, 0x42, 0x98, 0xfc, 0x1c, 0x14, 0x9a, 0xfb, 0xf4, 0xc8,
         0x99, 0x6f, 0xb9, 0x24, 0x27, 0xae, 0x41, 0xe4, 0x64, 0x9b, 0x93, 0x4c,
         0xa4, 0x95, 0x99, 0x1b, 0x78, 0x52, 0xb8, 0x55] := by
  decide

end MBE
